import Mathlib

/-!
Shallow embedding of the Jixovox-DataBase repository's storage core.

The Python sources embedded here are:
* `Database/add.py` — interactive registration backed by a per-role
  gzip JSON-Lines store (`Users`), with an in-memory email index;
* `Database/remove.py` — deletion with positional renumbering
  (`delete_user_from_role`);
* `Database/export_import.py` — snapshot export/import with
  normalization, deduplication, id reassignment, stats refresh and
  export pruning;
* `Database/USERS.py` — the alternative JSON store with cross-role
  duplicate checks (`Users.add_user`, `Users.is_duplicate`).

Modelling conventions:
* records are structures whose fields mirror the dict keys the code
  touches; unknown further keys are carried in an `extra` association
  list so that dict copying and dict equality are meaningful;
* Fernet encryption is modelled in the decrypted view: `decrypt_data
  (encrypt_data x) = x`, and the SHA-256 email digest used by the
  index is modelled as the normalized email itself (the code only
  compares digests for equality, and the digest is injective up to
  collisions, which are out of scope);
* file I/O is replaced by explicit state passing: a store state is the
  tuple of per-role record lists, and persisting writes that state;
* Python `\w` is modelled as ASCII alphanumerics plus underscore.
-/

namespace Jixovox

/-- Python `str.lower` (ASCII view), written over the character list
so that concrete instances evaluate inside the kernel. -/
def pyLower (s : String) : String := ⟨s.data.map Char.toLower⟩

/-- Python `str.strip`: drop leading and trailing whitespace. -/
def pyStrip (s : String) : String :=
  ⟨((s.data.dropWhile Char.isWhitespace).reverse.dropWhile Char.isWhitespace).reverse⟩

/-- `_norm_email` in `add.py`: `e.strip().lower()`. -/
def normEmail (e : String) : String := pyLower (pyStrip e)

/-- Python `str.isdigit` on ASCII data: nonempty and all digits. -/
def pyIsDigit (s : String) : Bool := !s.data.isEmpty && s.data.all Char.isDigit

/-- Regex `\w` (ASCII view): letters, digits, underscore. -/
def isWordChar (c : Char) : Bool := c.isAlphanum || c == '_'

/-- A character allowed by `[\w\.-]` in the email regex. -/
def isLocalChar (c : Char) : Bool := isWordChar c || c == '.' || c == '-'

/-- `re.match(r"^[\w\.-]+@[\w\.-]+\.\w+$", s)` from `add.py`
(`Validator.email`) and `USERS.py` (`_validate_user`): a nonempty run
of `[\w.-]` characters, an `@`, a domain whose part before the last
dot is a nonempty run of `[\w.-]` characters and whose part after the
last dot is a nonempty run of word characters. -/
def validEmail (s : String) : Bool :=
  let cs := s.toList
  let locp := cs.takeWhile (· ≠ '@')
  match cs.dropWhile (· ≠ '@') with
  | '@' :: dom =>
    let rd := dom.reverse
    let tld := rd.takeWhile (· ≠ '.')
    (match rd.dropWhile (· ≠ '.') with
     | '.' :: aRev =>
       !locp.isEmpty && locp.all isLocalChar &&
       !aRev.isEmpty && aRev.all isLocalChar &&
       !tld.isEmpty && tld.all isWordChar
     | _ => false)
  | _ => false

/-! ## `Database/add.py`: the gzip JSON-Lines store -/

/-- A record written by `add.py`'s `main` (decrypted view of the
JSON-Lines entry: `id`, `name`, `email`, `password`, `role`,
`created`).  The credential structure is abstracted as one opaque
string since no claim inspects it. -/
structure URec where
  id : String
  name : String
  email : String
  password : String
  role : String
  created : String
deriving DecidableEq, Repr

/-- The four roles `add.py` accepts (`VALID_ROLES`, no `Bot`). -/
inductive AddRole
  | owner
  | developer
  | admin
  | member
deriving DecidableEq, Repr

/-- The role folder name. -/
def AddRole.label : AddRole → String
  | .owner => "Owner"
  | .developer => "Developer"
  | .admin => "Admin"
  | .member => "Member"

/-- The whole `add.py` world: one `Users` store (one cache) per role
folder. -/
structure DB4 where
  owner : List URec
  developer : List URec
  admin : List URec
  member : List URec
deriving DecidableEq, Repr

def DB4.empty : DB4 := ⟨[], [], [], []⟩

def DB4.get (db : DB4) : AddRole → List URec
  | .owner => db.owner
  | .developer => db.developer
  | .admin => db.admin
  | .member => db.member

def DB4.set (db : DB4) : AddRole → List URec → DB4
  | .owner, l => { db with owner := l }
  | .developer, l => { db with developer := l }
  | .admin, l => { db with admin := l }
  | .member, l => { db with member := l }

/-- The email index a `Users` instance builds in `_load_cache` and
maintains in `add_user`: the digest of the normalized decrypted email
of every cached record whose decrypted email is nonempty and readable
(the digest is modelled as the normalized email itself). -/
def emailIndex (cache : List URec) : List String :=
  cache.filterMap fun u =>
    if u.email ≠ "" ∧ u.email ≠ "[UNREADABLE]" then some (normEmail u.email)
    else none

/-- `Users.email_exists`: membership of the hashed normalized email in
this store's index (decrypted view; the `"@" not in candidate` branch
only undoes the encryption, which the decrypted view already has). -/
def emailExists (cache : List URec) (e : String) : Bool :=
  (emailIndex cache).contains (normEmail e)

/-- `Users.add_user`: reject when the email is already indexed,
otherwise append to the cache (and persist the cache). -/
def addUserGz (cache : List URec) (u : URec) : Except String (List URec) :=
  if emailExists cache u.email then .error "Email already exists."
  else .ok (cache ++ [u])

/-- One interactive registration (`add.py` `main`) on validated
inputs: `new_id = User_Count + 1` from the stats file, a duplicate
check against the chosen role's store, the append, and the stats
update `User_Count = new_id`.  Errors leave everything unpersisted. -/
def addMain (db : DB4) (userCount : Nat) (nm em pw : String) (role : AddRole)
    (created : String) : Except String (DB4 × Nat) :=
  let newId := userCount + 1
  let cache := db.get role
  if emailExists cache em then .error "Email already exists."
  else
    match addUserGz cache ⟨toString newId, nm, em, pw, role.label, created⟩ with
    | .error msg => .error msg
    | .ok cache2 => .ok (db.set role cache2, newId)

/-- One registration request: the validated prompt inputs. -/
structure AddReq where
  nm : String
  em : String
  pw : String
  role : AddRole
  created : String

/-- One run of `add.py` `main`: on any error the store and stats are
left unchanged (the `except` clause only logs). -/
def addStep (s : DB4 × Nat) (r : AddReq) : DB4 × Nat :=
  match addMain s.1 s.2 r.nm r.em r.pw r.role r.created with
  | .ok s2 => s2
  | .error _ => s

/-- A sequence of registrations. -/
def applyAdds (s : DB4 × Nat) (rs : List AddReq) : DB4 × Nat :=
  rs.foldl addStep s

/-- The invariant one `add.py` role store maintains: every cached
record's (decrypted) email contains an `@` — which `Validator.email`
guarantees for every record the main flow stores — and no two cached
records share a normalized email. -/
def GoodCache (l : List URec) : Prop :=
  (∀ u ∈ l, '@' ∈ u.email.data) ∧
  l.Pairwise fun a b => normEmail a.email ≠ normEmail b.email

/-! ## `Database/remove.py`: deletion with renumbering -/

/-- A record as `remove.py` sees it (`User` TypedDict with
`total=False`: every key optional), plus the unmodelled dict keys. -/
structure RRec where
  id : Option String
  name : Option String
  email : Option String
  extra : List (String × String)
deriving DecidableEq, Repr

/-- The renumbering loop of `delete_user_from_role`: position `idx`
(1-based) gets id `str(idx)` — but only when the record's current id
is a digit string (`str(user.get("id", "")).isdigit()`). -/
def renumberRemaining (l : List RRec) : List RRec :=
  l.enum.map fun p =>
    if pyIsDigit (p.2.id.getD "") then { p.2 with id := some (toString (p.1 + 1)) }
    else p.2

/-- The mutation `delete_user_from_role` persists: drop every entry
equal (as a dict) to the selected record, renumber, save. -/
def deleteCore (users : List RRec) (selected : RRec) : List RRec :=
  renumberRemaining (users.filter (· ≠ selected))

/-! ## `Database/export_import.py`: snapshots -/

/-- A record as the snapshot pipeline sees it: the four required keys,
each possibly absent, plus the untouched remaining keys. -/
structure XRec where
  id : Option String
  name : Option String
  email : Option String
  role : Option String
  extra : List (String × String)
deriving DecidableEq, Repr

/-- `_normalize_user`: fail when a required field is missing,
otherwise copy the dict, re-stamp `role` with the containing role key
and strip `id`, `name`, `email`. -/
def normalizeUser (u : XRec) (role : String) : Except String XRec :=
  if u.id.isNone || u.name.isNone || u.email.isNone || u.role.isNone then
    .error "Missing required fields"
  else
    .ok { id := some (pyStrip (u.id.getD ""))
          name := some (pyStrip (u.name.getD ""))
          email := some (pyStrip (u.email.getD ""))
          role := some role
          extra := u.extra }

/-- The list comprehension `[_normalize_user(user, role) for user in
incoming_raw]`: normalize left to right, the first failure aborting
the whole role. -/
def normalizeAll (role : String) : List XRec → Except String (List XRec)
  | [] => .ok []
  | u :: rest =>
    match normalizeUser u role with
    | .error msg => .error msg
    | .ok n =>
      match normalizeAll role rest with
      | .error msg => .error msg
      | .ok ns => .ok (n :: ns)

/-- `_dedupe_users`' `email_key`: `str(user.get("email", "")).lower()`. -/
def emailKey (u : XRec) : String := pyLower (u.email.getD "")

/-- `_dedupe_users`' `identifier`: the lowercased email, falling back
to `str(user.get("id", ""))` when that is empty. -/
def identKey (u : XRec) : String :=
  if emailKey u = "" then u.id.getD "" else emailKey u

/-- One step of `_dedupe_users`: overwrite the record at the position
`seen[identifier]` — the unique (hence first) position holding that
identity key — or append a record with a fresh key. -/
def dedupeInsert : List XRec → XRec → List XRec
  | [], u => [u]
  | v :: vs, u =>
    if identKey v == identKey u then u :: vs else v :: dedupeInsert vs u

/-- `_dedupe_users`. -/
def dedupeUsers (users : List XRec) : List XRec :=
  users.foldl dedupeInsert []

/-- The last record of `users` carrying identity key `k`. -/
def lastWithKey (users : List XRec) (k : String) : Option XRec :=
  users.reverse.find? fun u => identKey u == k

/-- `_reindex_ids`: copy each dict and set `id` to the 1-based
position as a decimal string. -/
def reindexIds (users : List XRec) : List XRec :=
  users.enum.map fun p => { p.2 with id := some (toString (p.1 + 1)) }

/-- The invariant relating a processed prefix `p` of the dedup input
to the accumulator `ded`: keys in `ded` are pairwise distinct, each
accumulated record is the last of the prefix with its key, and the
keys of the prefix and of the accumulator coincide. -/
def DedupeInv (p ded : List XRec) : Prop :=
  ded.Pairwise (fun a b => identKey a ≠ identKey b)
  ∧ (∀ v ∈ ded, lastWithKey p (identKey v) = some v)
  ∧ (∀ u ∈ p, ∃ v ∈ ded, identKey v = identKey u)
  ∧ (∀ v ∈ ded, ∃ u ∈ p, identKey u = identKey v)

/-- A record as `_normalize_user` leaves it for its containing role:
all required fields present, `role` re-stamped, `id`, `name`, `email`
already stripped. -/
def NormedRec (u : XRec) (role : String) : Prop :=
  u.id.isSome ∧ u.name.isSome ∧ u.email.isSome ∧ u.role = some role
  ∧ pyStrip (u.id.getD "") = u.id.getD ""
  ∧ pyStrip (u.name.getD "") = u.name.getD ""
  ∧ pyStrip (u.email.getD "") = u.email.getD ""

/-- A role file on which the import pipeline acts as the identity:
normalized records, pairwise distinct identity keys, ids `1..N`. -/
def RoleInvX (l : List XRec) (role : String) : Prop :=
  (∀ u ∈ l, NormedRec u role)
  ∧ l.Pairwise (fun a b => identKey a ≠ identKey b)
  ∧ ∀ (i : Nat) (u : XRec), l[i]? = some u → u.id = some (toString (i + 1))

/-- `DEFAULT_ROLES` in `export_import.py`. -/
def defaultRoles : List String := ["Owner", "Developer", "Admin", "Member", "Bot"]

/-- The five role folders the snapshot pipeline operates on. -/
inductive Role5
  | owner
  | developer
  | admin
  | member
  | bot
deriving DecidableEq, Repr

def Role5.label : Role5 → String
  | .owner => "Owner"
  | .developer => "Developer"
  | .admin => "Admin"
  | .member => "Member"
  | .bot => "Bot"

def Role5.all : List Role5 := [.owner, .developer, .admin, .member, .bot]

/-- Recognize a snapshot role key (`role in DEFAULT_ROLES`). -/
def strToRole5 (s : String) : Option Role5 :=
  if s = "Owner" then some .owner
  else if s = "Developer" then some .developer
  else if s = "Admin" then some .admin
  else if s = "Member" then some .member
  else if s = "Bot" then some .bot
  else none

/-- The per-role `users.json` files the snapshot pipeline reads and
rewrites. -/
structure DBX where
  owner : List XRec
  developer : List XRec
  admin : List XRec
  member : List XRec
  bot : List XRec
deriving DecidableEq, Repr

def DBX.empty : DBX := ⟨[], [], [], [], []⟩

def DBX.get (db : DBX) : Role5 → List XRec
  | .owner => db.owner
  | .developer => db.developer
  | .admin => db.admin
  | .member => db.member
  | .bot => db.bot

def DBX.set (db : DBX) : Role5 → List XRec → DBX
  | .owner, l => { db with owner := l }
  | .developer, l => { db with developer := l }
  | .admin, l => { db with admin := l }
  | .member, l => { db with member := l }
  | .bot, l => { db with bot := l }

/-- Every role file satisfies the identity invariant. -/
def InvX (db : DBX) : Prop := ∀ r : Role5, RoleInvX (db.get r) r.label

/-- Import mode. -/
inductive Mode
  | merge
  | replace
deriving DecidableEq, Repr

/-- A snapshot document: its `users` section, `none` when the section
is missing or not a mapping.  Metadata is not consulted when
reading a snapshot back in. -/
structure Snapshot where
  users : Option (List (String × List XRec))

/-- `export_database`: the snapshot's `users` section lists every
default role's current records verbatim. -/
def exportSnapshot (db : DBX) : Snapshot :=
  ⟨some [("Owner", db.owner), ("Developer", db.developer), ("Admin", db.admin),
         ("Member", db.member), ("Bot", db.bot)]⟩

/-- The `merged` assignment in `import_database`'s role loop: combine
existing and incoming in merge mode, incoming only in replace mode,
then deduplicate. -/
def mergedRecs (mode : Mode) (existing incoming : List XRec) : List XRec :=
  match mode with
  | .merge => dedupeUsers (existing ++ incoming)
  | .replace => dedupeUsers incoming

/-- One iteration of `import_database`'s role loop: skip unknown role
keys; otherwise normalize the incoming records (any failure aborts
before this role is written), merge or replace, dedupe, reindex,
persist, and add the final count to the running total. -/
def importEntry (mode : Mode) (db : DBX) (total : Nat) (role : String)
    (recs : List XRec) : Except String (DBX × Nat) :=
  match strToRole5 role with
  | none => .ok (db, total)
  | some r =>
    match normalizeAll role recs with
    | .error msg => .error msg
    | .ok incoming =>
      let final := reindexIds (mergedRecs mode (db.get r) incoming)
      .ok (db.set r final, total + final.length)

/-- `import_database`'s loop over the snapshot's `users` entries, with
an explicit write trace: on an error the returned state reflects the
roles already persisted before the failure. -/
def importLoop (mode : Mode) :
    List (String × List XRec) → DBX → Nat → (DBX × Nat) × Option String
  | [], db, total => ((db, total), none)
  | (role, recs) :: rest, db, total =>
    match importEntry mode db total role recs with
    | .error msg => ((db, total), some msg)
    | .ok (db2, t2) => importLoop mode rest db2 t2

/-- `import_database`: reject a snapshot without a `users` mapping
before touching anything; otherwise run the role loop and, only on
full success, write `User_Count` (the `Option Nat` component: `none`
means the stats file was not touched). -/
def importDatabase (mode : Mode) (db : DBX) (snap : Snapshot) :
    (DBX × Option Nat) × Option String :=
  match snap.users with
  | none => ((db, none), some "Snapshot is missing a valid users section")
  | some entries =>
    match importLoop mode entries db 0 with
    | ((db2, total), none) => ((db2, some total), none)
    | ((db2, _), some msg) => ((db2, none), some msg)

/-- The total `import_database` actually accumulates: the sum, over
the snapshot entries whose role key is in the fixed enumeration, of
the final length of that role's file. -/
def processedSum (db : DBX) : List (String × List XRec) → Nat
  | [] => 0
  | (role, _) :: rest =>
    (match strToRole5 role with
     | some r => (db.get r).length
     | none => 0) + processedSum db rest

/-- Python `exports[:excess]` length: a slice stop, negative values
counting from the end, clamped into the list. -/
def pySliceStop (len stop : Int) : Nat :=
  (if stop < 0 then max (len + stop) 0 else min stop len).toNat

/-- `prune_old_exports` on the name-sorted listing of the exports
directory: keep everything when `retention <= 0`, otherwise delete the
slice `exports[:len(exports) - retention]` and return what remains. -/
def pruneOldExports (retention : Int) (exports : List String) : List String :=
  if retention ≤ 0 then exports
  else exports.drop (pySliceStop exports.length (exports.length - retention))

/-- `run_backup`: the export is written first, so pruning sees the
directory listing with the new snapshot already present. -/
def runBackup (exportsAfterNew : List String) (retention : Int) : List String :=
  pruneOldExports retention exportsAfterNew

/-! ## `Database/USERS.py`: the alternative store -/

/-- A record in a `USERS.py` `users.json` file (arbitrary dict: every
required key possibly absent). -/
structure SRec where
  id : Option String
  name : Option String
  email : Option String
  role : Option String
  extra : List (String × String)
deriving DecidableEq, Repr

/-- The five `users.json` files `USERS.py` manages. -/
structure DBS where
  owner : List SRec
  developer : List SRec
  admin : List SRec
  member : List SRec
  bot : List SRec
deriving DecidableEq, Repr

def DBS.get (db : DBS) : Role5 → List SRec
  | .owner => db.owner
  | .developer => db.developer
  | .admin => db.admin
  | .member => db.member
  | .bot => db.bot

def DBS.set (db : DBS) : Role5 → List SRec → DBS
  | .owner, l => { db with owner := l }
  | .developer, l => { db with developer := l }
  | .admin, l => { db with admin := l }
  | .member, l => { db with member := l }
  | .bot, l => { db with bot := l }

/-- `Users.is_duplicate`: scan every role's records for an exact
(untrimmed, case-sensitive) match of the candidate name or email. -/
def isDuplicate (db : DBS) (nm em : String) : Bool :=
  Role5.all.any fun r =>
    (db.get r).any fun u => u.name == some nm || u.email == some em

/-- `Users.add_user`: `_validate_user` (required fields, email regex,
role in the fixed enumeration), then the cross-role duplicate check,
then append to the candidate's role and persist.  Every raise happens
before any write. -/
def addUserS (db : DBS) (u : SRec) : Except String DBS :=
  if u.id.isNone || u.name.isNone || u.email.isNone || u.role.isNone then
    .error "Missing required fields"
  else if !validEmail (u.email.getD "") then .error "Invalid email format"
  else
    match strToRole5 (u.role.getD "") with
    | none => .error "Invalid role"
    | some r =>
      if isDuplicate db (u.name.getD "") (u.email.getD "") then
        .error "User with same name or email exists in another role."
      else .ok (db.set r (db.get r ++ [u]))

/-- `Users.add_user` as a state transformer: the caller's store is
unchanged when the call raises. -/
def addStepS (db : DBS) (u : SRec) : DBS :=
  match addUserS db u with
  | .ok db2 => db2
  | .error _ => db

/-! ## Formulas taken from the specification, for comparison -/

/-- Decimal reading of an id string (ASCII digits). -/
def strToNat (s : String) : Nat :=
  s.data.foldl (fun n c => n * 10 + (c.toNat - '0'.toNat)) 0

/-- The id-assignment formula the specification claims for `add`:
`max(existing ids in this role, default 0) + 1`.  This is the
specification's formula, defined here only to compare it with what
`add.py` actually computes. -/
def claimedNextId (cache : List URec) : Nat :=
  (cache.foldl (fun m u => max m (strToNat u.id)) 0) + 1

end Jixovox

namespace Jixovox

/-! ## Theorems -/

/-- C9: `_reindex_ids` returns a list of the same length in the same
order; the k-th record (1-based) gets id `str(k)`; every other field
is copied unchanged from the corresponding input record.  The input is
not mutated: the source copies each dict (`dict(user)`), and the
embedding is a pure function of its argument. -/
theorem reindex_ids_renumbers (us : List XRec) :
    (reindexIds us).length = us.length
    ∧ ∀ i : Nat, (reindexIds us)[i]? =
        us[i]?.map fun u => { u with id := some (toString (i + 1)) } := by
  constructor
  · simp [reindexIds]
  · intro i
    rcases h : us[i]? with _ | u <;>
      simp [reindexIds, List.getElem?_enum, h]

/-- C6: evaluation of `prune_old_exports` at its failing input.  With
`retention <= 0` nothing is deleted, and with the directory over the
retention count the oldest excess files are deleted; but with three
exports and retention 5 — at most `retention` exports present — the
slice `exports[:3 - 5]` is `exports[:-2]`, so the oldest export is
deleted even though the directory is under the limit. -/
theorem prune_deletes_below_retention :
    pruneOldExports (-1) ["e1", "e2", "e3"] = ["e1", "e2", "e3"]
    ∧ pruneOldExports 0 ["e1", "e2", "e3"] = ["e1", "e2", "e3"]
    ∧ pruneOldExports 2 ["e1", "e2", "e3"] = ["e2", "e3"]
    ∧ runBackup ["e1", "e2", "e3"] 5 = ["e2", "e3"]
    ∧ runBackup ["e1", "e2", "e3"] 5 ≠ ["e1", "e2", "e3"] := by
  refine ⟨by decide, by decide, by decide, by decide, by decide⟩

/-- C8: a snapshot whose `users` section is missing (or not a mapping)
is rejected with the validation error before any role file or the
stats file is touched (the returned store is the input store and the
stats component is `none`); a role key outside the fixed enumeration
is skipped without contributing anything and without an error; and
`strToRole5` recognizes exactly the `DEFAULT_ROLES` enumeration. -/
theorem import_rejects_missing_users_and_skips_unknown_roles :
    (∀ (mode : Mode) (db : DBX) (snap : Snapshot), snap.users = none →
      importDatabase mode db snap =
        ((db, none), some "Snapshot is missing a valid users section"))
    ∧ (∀ (mode : Mode) (role : String) (recs : List XRec)
        (rest : List (String × List XRec)) (db : DBX) (t : Nat),
        strToRole5 role = none →
        importLoop mode ((role, recs) :: rest) db t = importLoop mode rest db t)
    ∧ (∀ s : String, strToRole5 s = none ↔ s ∉ defaultRoles) := by
  refine ⟨?_, ?_, ?_⟩
  · intro mode db snap h
    simp [importDatabase, h]
  · intro mode role recs rest db t h
    simp [importLoop, importEntry, h]
  · intro s
    unfold strToRole5
    split_ifs <;> simp_all [defaultRoles]

/-- Witness for C8 at a concrete snapshot and a concrete unknown role
key. -/
theorem import_rejects_missing_users_witness :
    importDatabase .merge DBX.empty ⟨none⟩ =
      ((DBX.empty, none), some "Snapshot is missing a valid users section")
    ∧ importLoop .merge [("Guest", [])] DBX.empty 0 =
        importLoop .merge [] DBX.empty 0 := by
  exact ⟨import_rejects_missing_users_and_skips_unknown_roles.1 .merge DBX.empty ⟨none⟩ rfl,
         import_rejects_missing_users_and_skips_unknown_roles.2.1 .merge "Guest" [] [] DBX.empty 0
           (by decide)⟩

end Jixovox

namespace Jixovox

/-- A successful index lookup is within bounds. -/
theorem getElem?_some_lt {α : Type} {l : List α} {i : Nat} {a : α}
    (h : l[i]? = some a) : i < l.length := by
  by_contra hc
  push_neg at hc
  rw [List.getElem?_eq_none hc] at h
  exact Option.noConfusion h

/-- The renumbering loop of `delete_user_from_role`, position-wise. -/
theorem renumberRemaining_getElem (l : List RRec) (i : Nat) :
    (renumberRemaining l)[i]? =
      l[i]?.map fun u =>
        if pyIsDigit (u.id.getD "") then { u with id := some (toString (i + 1)) }
        else u := by
  rcases h : l[i]? with _ | u <;>
    simp [renumberRemaining, List.getElem?_enum, h]

/-- C2 (amended): after a removal that deletes one record, the
remaining records keep their prior relative order (the persisted list
is the order-preserving sublist of non-deleted records, rewritten
position by position); a remaining record at 1-based position `k`
whose current id is a digit string gets id `str(k)`, while a record
whose id is not a digit string keeps its old id; when every remaining
record has a digit-string id the persisted ids are exactly
`"1" .. "N"`. -/
theorem remove_renumbers_digit_ids (users : List RRec) (selected : RRec)
    (hone : (users.filter (· = selected)).length = 1) :
    (deleteCore users selected).length = users.length - 1
    ∧ (∀ i : Nat, (deleteCore users selected)[i]? =
        (users.filter (· ≠ selected))[i]?.map fun u =>
          if pyIsDigit (u.id.getD "") then { u with id := some (toString (i + 1)) }
          else u)
    ∧ ((∀ u ∈ users.filter (· ≠ selected), pyIsDigit (u.id.getD "")) →
        (deleteCore users selected).map RRec.id =
          (List.range (users.length - 1)).map fun i => some (toString (i + 1))) := by
  have hsplit := List.length_eq_length_filter_add (l := users) (fun u => u = selected)
  have hnot : users.filter (fun u => !(u = selected : Bool)) = users.filter (· ≠ selected) := by
    simp
  rw [hnot] at hsplit
  have hrem : (users.filter (· ≠ selected)).length = users.length - 1 := by
    omega
  have hlen : (deleteCore users selected).length = users.length - 1 := by
    simpa [deleteCore, renumberRemaining] using hrem
  refine ⟨hlen, fun i => renumberRemaining_getElem _ i, fun hdig => ?_⟩
  apply List.ext_getElem?
  intro i
  rcases h : (users.filter (· ≠ selected))[i]? with _ | u
  · have hge : (users.length - 1) ≤ i := by
      have := List.getElem?_eq_none_iff.mp h
      omega
    have h1 : ((deleteCore users selected).map RRec.id)[i]? = none := by
      rw [List.getElem?_eq_none_iff]
      simpa [hlen] using hge
    have h2 : (((List.range (users.length - 1))).map fun j => some (toString (j + 1)))[i]? = none := by
      rw [List.getElem?_eq_none_iff]
      simpa using hge
    rw [h1, h2]
  · have hlt : i < users.length - 1 := by
      have := getElem?_some_lt h
      omega
    have hmem : u ∈ users.filter (· ≠ selected) := List.getElem?_mem h
    have hdu := hdig u hmem
    have h1 : ((deleteCore users selected).map RRec.id)[i]? = some (some (toString (i + 1))) := by
      simp only [deleteCore, List.getElem?_map, renumberRemaining_getElem, h]
      simp [hdu]
    have h2 : (((List.range (users.length - 1))).map fun j => some (toString (j + 1)))[i]? =
        some (some (toString (i + 1))) := by
      rw [List.getElem?_map, List.getElem?_range hlt]
      rfl
    rw [h1, h2]

end Jixovox

namespace Jixovox

/-- Witness for the amended C2 at a concrete two-record store. -/
theorem remove_renumbers_digit_ids_witness :
    (([⟨some "1", some "Alice", some "alice@test.com", []⟩,
       ⟨some "2", some "Bob", some "bob@test.com", []⟩] :
        List RRec).filter (· = ⟨some "1", some "Alice", some "alice@test.com", []⟩)).length = 1
    ∧ ((deleteCore
        [⟨some "1", some "Alice", some "alice@test.com", []⟩,
         ⟨some "2", some "Bob", some "bob@test.com", []⟩]
        ⟨some "1", some "Alice", some "alice@test.com", []⟩).length = 2 - 1
      ∧ (∀ i : Nat, (deleteCore
          [⟨some "1", some "Alice", some "alice@test.com", []⟩,
           ⟨some "2", some "Bob", some "bob@test.com", []⟩]
          ⟨some "1", some "Alice", some "alice@test.com", []⟩)[i]? =
          (([⟨some "1", some "Alice", some "alice@test.com", []⟩,
             ⟨some "2", some "Bob", some "bob@test.com", []⟩] :
              List RRec).filter
                (· ≠ ⟨some "1", some "Alice", some "alice@test.com", []⟩))[i]?.map fun u =>
            if pyIsDigit (u.id.getD "") then { u with id := some (toString (i + 1)) }
            else u)
      ∧ ((∀ u ∈ ([⟨some "1", some "Alice", some "alice@test.com", []⟩,
                  ⟨some "2", some "Bob", some "bob@test.com", []⟩] :
              List RRec).filter (· ≠ ⟨some "1", some "Alice", some "alice@test.com", []⟩),
            pyIsDigit (u.id.getD "")) →
          (deleteCore
            [⟨some "1", some "Alice", some "alice@test.com", []⟩,
             ⟨some "2", some "Bob", some "bob@test.com", []⟩]
            ⟨some "1", some "Alice", some "alice@test.com", []⟩).map RRec.id =
            (List.range (2 - 1)).map fun i => some (toString (i + 1)))) := by
  have hone : (([⟨some "1", some "Alice", some "alice@test.com", []⟩,
       ⟨some "2", some "Bob", some "bob@test.com", []⟩] :
        List RRec).filter (· = ⟨some "1", some "Alice", some "alice@test.com", []⟩)).length = 1 := by
    decide
  exact ⟨hone, remove_renumbers_digit_ids _ _ hone⟩

/-- C2 as stated is false: removing the single matching record
`{id:"1", name:"Alice"}` from a collection whose second record has the
non-digit id `"x"` persists ids `["x", "2"]`, not the contiguous
`["1", "2"]` — the renumbering loop skips any record whose current id
is not a digit string. -/
theorem remove_renumbers_counterexample :
    (([⟨some "1", some "Alice", some "a@x.com", []⟩,
       ⟨some "x", some "Bob", some "b@x.com", []⟩,
       ⟨some "2", some "Carol", some "c@x.com", []⟩] :
        List RRec).filter (· = ⟨some "1", some "Alice", some "a@x.com", []⟩)).length = 1
    ∧ deleteCore
        [⟨some "1", some "Alice", some "a@x.com", []⟩,
         ⟨some "x", some "Bob", some "b@x.com", []⟩,
         ⟨some "2", some "Carol", some "c@x.com", []⟩]
        ⟨some "1", some "Alice", some "a@x.com", []⟩ =
        [⟨some "x", some "Bob", some "b@x.com", []⟩,
         ⟨some "2", some "Carol", some "c@x.com", []⟩]
    ∧ (deleteCore
        [⟨some "1", some "Alice", some "a@x.com", []⟩,
         ⟨some "x", some "Bob", some "b@x.com", []⟩,
         ⟨some "2", some "Carol", some "c@x.com", []⟩]
        ⟨some "1", some "Alice", some "a@x.com", []⟩).map RRec.id ≠
        [some "1", some "2"] := by
  refine ⟨by decide, by decide, by decide⟩

end Jixovox

namespace Jixovox

/-- C3 (amended): a successful registration assigns
`id = str(User_Count + 1)` where `User_Count` is read from the stats
file (defaulting to 0 when that file is missing or corrupt) — the
role's existing ids are never consulted for the assignment.  The store
gains exactly the new record at the end and the persisted counter
becomes `User_Count + 1`. -/
theorem add_assigns_stats_counter_id (db : DB4) (count : Nat)
    (nm em pw created : String) (role : AddRole)
    (h : emailExists (db.get role) em = false) :
    addMain db count nm em pw role created =
      .ok (db.set role
            (db.get role ++ [⟨toString (count + 1), nm, em, pw, role.label, created⟩]),
           count + 1) := by
  simp [addMain, addUserGz, h]

/-- Witness for the amended C3: an empty Owner store with a stats
counter of 5 yields id `"6"`. -/
theorem add_assigns_stats_counter_id_witness :
    emailExists (DB4.empty.get .owner) "carol@x.com" = false
    ∧ addMain DB4.empty 5 "Carol" "carol@x.com" "pw" .owner "t0" =
        .ok (DB4.empty.set .owner
              [⟨toString (5 + 1), "Carol", "carol@x.com", "pw", AddRole.owner.label, "t0"⟩],
             5 + 1) := by
  exact ⟨by decide,
         add_assigns_stats_counter_id DB4.empty 5 "Carol" "carol@x.com" "pw" "t0" .owner
           (by decide)⟩

/-- C3 as stated is false: with an Owner store holding ids `"1"` and
`"2"` (so `max(existing ids) + 1 = 3`) but a stats counter of 5, the
new record is assigned id `"6"`, not `"3"`. -/
theorem add_id_not_role_max_counterexample :
    addMain
      ⟨[⟨"1", "A", "a@x.com", "p", "Owner", "t"⟩,
        ⟨"2", "B", "b@x.com", "p", "Owner", "t"⟩], [], [], []⟩
      5 "C" "c@x.com" "p" .owner "t" =
      .ok (⟨[⟨"1", "A", "a@x.com", "p", "Owner", "t"⟩,
             ⟨"2", "B", "b@x.com", "p", "Owner", "t"⟩,
             ⟨"6", "C", "c@x.com", "p", "Owner", "t"⟩], [], [], []⟩, 6)
    ∧ claimedNextId
        [⟨"1", "A", "a@x.com", "p", "Owner", "t"⟩,
         ⟨"2", "B", "b@x.com", "p", "Owner", "t"⟩] = 3
    ∧ ("6" : String) ≠ toString (claimedNextId
        [⟨"1", "A", "a@x.com", "p", "Owner", "t"⟩,
         ⟨"2", "B", "b@x.com", "p", "Owner", "t"⟩]) := by
  refine ⟨rfl, by decide, by decide⟩

end Jixovox

namespace Jixovox

/-- Every role is enumerated by `VALID_ROLES`. -/
theorem Role5.mem_all (r : Role5) : r ∈ Role5.all := by
  cases r <;> simp [Role5.all]

/-- C10: `Users.add_user` rejects a candidate — raising and leaving
every role's collection unchanged — whenever some record in ANY role
carries exactly the candidate's name, even when all stored emails
differ from the candidate's; and `Users.is_duplicate` holds exactly
when some record in some role matches the candidate name or email by
plain (untrimmed, case-sensitive) string equality. -/
theorem users_add_rejects_same_name_any_role (db : DBS) (u : SRec) (nm : String)
    (hn : u.name = some nm)
    (hdup : ∃ r : Role5, ∃ v ∈ db.get r, v.name = some nm) :
    ((∃ msg, addUserS db u = Except.error msg) ∧ addStepS db u = db)
    ∧ ∀ nm' em' : String, isDuplicate db nm' em' = true ↔
        ∃ r : Role5, ∃ v ∈ db.get r, v.name = some nm' ∨ v.email = some em' := by
  have hiff : ∀ nm' em' : String, isDuplicate db nm' em' = true ↔
      ∃ r : Role5, ∃ v ∈ db.get r, v.name = some nm' ∨ v.email = some em' := by
    intro nm' em'
    simp only [isDuplicate, List.any_eq_true]
    constructor
    · rintro ⟨r, _, v, hv, hor⟩
      refine ⟨r, v, hv, ?_⟩
      simpa using hor
    · rintro ⟨r, v, hv, hor⟩
      exact ⟨r, Role5.mem_all r, v, hv, by simpa using hor⟩
  have hdup2 : isDuplicate db (u.name.getD "") (u.email.getD "") = true := by
    apply (hiff (u.name.getD "") (u.email.getD "")).mpr
    obtain ⟨r, v, hv, hvn⟩ := hdup
    refine ⟨r, v, hv, Or.inl ?_⟩
    rw [hn]
    simpa [hn] using hvn
  have herr : ∃ msg, addUserS db u = Except.error msg := by
    by_cases h1 : (u.id.isNone || u.name.isNone || u.email.isNone || u.role.isNone : Bool)
    · exact ⟨"Missing required fields", by simp [addUserS, h1]⟩
    · by_cases h2 : validEmail (u.email.getD "")
      · rcases h3 : strToRole5 (u.role.getD "") with _ | r
        · exact ⟨"Invalid role", by simp [addUserS, h1, h2, h3]⟩
        · exact ⟨"User with same name or email exists in another role.",
            by simp [addUserS, h1, h2, h3, hdup2]⟩
      · exact ⟨"Invalid email format", by simp [addUserS, h1, h2]⟩
  refine ⟨⟨herr, ?_⟩, hiff⟩
  obtain ⟨msg, hmsg⟩ := herr
  simp [addStepS, hmsg]

/-- Witness for C10: a store whose Owner collection holds a record
named `Alice`; adding an `Alice` with a different, valid email into a
different role is rejected and the store is unchanged. -/
theorem users_add_rejects_same_name_witness :
    (∃ r : Role5, ∃ v ∈ (⟨[⟨some "1", some "Alice", some "alice@x.com", some "Owner", []⟩],
        [], [], [], []⟩ : DBS).get r, v.name = some "Alice")
    ∧ (((∃ msg, addUserS
          ⟨[⟨some "1", some "Alice", some "alice@x.com", some "Owner", []⟩], [], [], [], []⟩
          ⟨some "2", some "Alice", some "other@y.com", some "Admin", []⟩ = Except.error msg)
        ∧ addStepS
            ⟨[⟨some "1", some "Alice", some "alice@x.com", some "Owner", []⟩], [], [], [], []⟩
            ⟨some "2", some "Alice", some "other@y.com", some "Admin", []⟩ =
            ⟨[⟨some "1", some "Alice", some "alice@x.com", some "Owner", []⟩], [], [], [], []⟩)
      ∧ ∀ nm' em' : String, isDuplicate
          ⟨[⟨some "1", some "Alice", some "alice@x.com", some "Owner", []⟩], [], [], [], []⟩
          nm' em' = true ↔
          ∃ r : Role5, ∃ v ∈ (⟨[⟨some "1", some "Alice", some "alice@x.com", some "Owner", []⟩],
            [], [], [], []⟩ : DBS).get r, v.name = some nm' ∨ v.email = some em') := by
  have hdup : ∃ r : Role5, ∃ v ∈ (⟨[⟨some "1", some "Alice", some "alice@x.com", some "Owner", []⟩],
      [], [], [], []⟩ : DBS).get r, v.name = some "Alice" :=
    ⟨.owner, ⟨some "1", some "Alice", some "alice@x.com", some "Owner", []⟩, by decide, rfl⟩
  exact ⟨hdup, users_add_rejects_same_name_any_role _ _ "Alice" rfl hdup⟩

end Jixovox

namespace Jixovox

/-- A string accepted by the email validator contains an `@`. -/
theorem validEmail_has_at {e : String} (h : validEmail e = true) :
    '@' ∈ e.data := by
  unfold validEmail at h
  simp only [String.toList] at h
  rcases hd : e.data.dropWhile (· ≠ '@') with _ | ⟨c, dom⟩ <;> rw [hd] at h
  · simp at h
  · have hc : c ∈ e.data.dropWhile (· ≠ '@') := by
      rw [hd]; exact List.mem_cons_self c dom
    have hmem : c ∈ e.data := (List.dropWhile_sublist _).subset hc
    rcases Decidable.em (c = '@') with h1 | h1
    · rwa [h1] at hmem
    · exfalso
      revert h
      split <;> simp_all

/-- A cached record with a readable nonempty email whose normalized
email matches the query makes `email_exists` fire. -/
theorem emailExists_of_dup {cache : List URec} {u : URec} {e : String}
    (hu : u ∈ cache) (hat : '@' ∈ u.email.data)
    (heq : normEmail u.email = normEmail e) :
    emailExists cache e = true := by
  have hne : u.email ≠ "" := by
    intro hc
    rw [hc] at hat
    simp at hat
  have hnur : u.email ≠ "[UNREADABLE]" := by
    intro hc
    rw [hc] at hat
    exact absurd hat (by decide)
  have hidx : normEmail u.email ∈ emailIndex cache := by
    simp only [emailIndex, List.mem_filterMap]
    exact ⟨u, hu, by rw [if_pos ⟨hne, hnur⟩]⟩
  rw [emailExists, ← heq]
  exact List.elem_eq_true_of_mem hidx

end Jixovox

namespace Jixovox

/-- Reading the role just written. -/
theorem DB4.get_set_eq4 (db : DB4) (r : AddRole) (l : List URec) :
    (db.set r l).get r = l := by
  cases r <;> rfl

/-- Writing one role leaves the others untouched. -/
theorem DB4.get_set_ne4 (db : DB4) {r r' : AddRole} (l : List URec)
    (h : r ≠ r') : (db.set r l).get r' = db.get r' := by
  cases r <;> cases r' <;> first | exact absurd rfl h | rfl

/-- One registration preserves the per-role invariant. -/
theorem addStep_preserves_good (s : DB4 × Nat) (r : AddReq)
    (hv : validEmail r.em = true)
    (hinv : ∀ role : AddRole, GoodCache (s.1.get role)) :
    ∀ role : AddRole, GoodCache ((addStep s r).1.get role) := by
  intro role
  rcases h : emailExists (s.1.get r.role) r.em with _ | _
  · have hstep : addStep s r =
        (s.1.set r.role (s.1.get r.role ++
          [⟨toString (s.2 + 1), r.nm, r.em, r.pw, r.role.label, r.created⟩]), s.2 + 1) := by
      simp [addStep, addMain, addUserGz, h]
    rw [hstep]
    rcases Decidable.em (r.role = role) with hr | hr
    · subst hr
      rw [DB4.get_set_eq4]
      obtain ⟨hat, hpw⟩ := hinv r.role
      constructor
      · intro u hu
        rcases List.mem_append.mp hu with hu | hu
        · exact hat u hu
        · rcases List.mem_singleton.mp hu with rfl
          exact validEmail_has_at hv
      · rw [List.pairwise_append]
        refine ⟨hpw, List.pairwise_singleton _ _, ?_⟩
        intro a ha b hb
        rcases List.mem_singleton.mp hb with rfl
        intro heq
        have : emailExists (s.1.get r.role) r.em = true :=
          emailExists_of_dup ha (hat a ha) heq
        rw [h] at this
        exact Bool.noConfusion this
    · rw [DB4.get_set_ne4 _ _ hr]
      exact hinv role
  · have hstep : addStep s r = s := by
      simp [addStep, addMain, h]
    rw [hstep]
    exact hinv role

/-- A sequence of registrations preserves the per-role invariant. -/
theorem applyAdds_preserves_good (rs : List AddReq)
    (hv : ∀ r ∈ rs, validEmail r.em = true) :
    ∀ s : DB4 × Nat, (∀ role : AddRole, GoodCache (s.1.get role)) →
      ∀ role : AddRole, GoodCache ((applyAdds s rs).1.get role) := by
  induction rs with
  | nil => intro s hinv role; exact hinv role
  | cons r rest ih =>
    intro s hinv role
    have hvr : validEmail r.em = true := hv r (List.mem_cons_self r rest)
    have hrest : ∀ x ∈ rest, validEmail x.em = true :=
      fun x hx => hv x (List.mem_cons_of_mem r hx)
    have h1 := addStep_preserves_good s r hvr hinv
    exact ih hrest (addStep s r) h1 role

/-- C1 (amended): duplicate detection in `add.py` is scoped to one
role's store, not the whole store.  Whenever the candidate's
normalized email matches the normalized email of a record already in
the SAME role, the add fails with the duplicate-identity error
(`EmailExistsError("Email already exists.")`) and the store and stats
are unchanged; consequently, after any sequence of adds with validated
emails starting from an empty store, no two records WITHIN ANY SINGLE
ROLE share a normalized email.  (Across different roles, duplicates
are not detected — see the counterexample.) -/
theorem add_duplicate_rejected_per_role :
    (∀ (db : DB4) (c : Nat) (r : AddReq),
      (∃ u ∈ db.get r.role, '@' ∈ u.email.data ∧ normEmail u.email = normEmail r.em) →
      addMain db c r.nm r.em r.pw r.role r.created = Except.error "Email already exists."
        ∧ addStep (db, c) r = (db, c))
    ∧ ∀ (rs : List AddReq) (c : Nat),
      (∀ r ∈ rs, validEmail r.em = true) →
      ∀ role : AddRole, GoodCache ((applyAdds (DB4.empty, c) rs).1.get role) := by
  constructor
  · intro db c r hdup
    obtain ⟨u, hu, hat, heq⟩ := hdup
    have hex : emailExists (db.get r.role) r.em = true :=
      emailExists_of_dup hu hat heq
    constructor
    · simp [addMain, hex]
    · simp [addStep, addMain, hex]
  · intro rs c hv role
    refine applyAdds_preserves_good rs hv (DB4.empty, c) ?_ role
    intro role'
    cases role' <;> exact ⟨fun u hu => absurd hu (List.not_mem_nil u), List.Pairwise.nil⟩

end Jixovox

namespace Jixovox

/-- Witness for the amended C1: a second add of `ALICE@test.com` into
Owner — the role already holding `alice@test.com` — fails and changes
nothing, and two validated adds keep every role's store duplicate
free. -/
theorem add_duplicate_rejected_per_role_witness :
    (∃ u ∈ (⟨[⟨"1", "Alice", "alice@test.com", "pw", "Owner", "t0"⟩], [], [], []⟩ :
        DB4).get AddRole.owner,
      '@' ∈ u.email.data ∧ normEmail u.email = normEmail "ALICE@test.com")
    ∧ (addMain ⟨[⟨"1", "Alice", "alice@test.com", "pw", "Owner", "t0"⟩], [], [], []⟩ 1
        "Alicetwo" "ALICE@test.com" "pw" AddRole.owner "t1" =
          Except.error "Email already exists."
      ∧ addStep (⟨[⟨"1", "Alice", "alice@test.com", "pw", "Owner", "t0"⟩], [], [], []⟩, 1)
          ⟨"Alicetwo", "ALICE@test.com", "pw", AddRole.owner, "t1"⟩ =
          (⟨[⟨"1", "Alice", "alice@test.com", "pw", "Owner", "t0"⟩], [], [], []⟩, 1))
    ∧ (∀ r ∈ ([⟨"Alice", "alice@test.com", "pw", AddRole.owner, "t0"⟩,
               ⟨"Bob", "bob@test.com", "pw", AddRole.admin, "t1"⟩] : List AddReq),
        validEmail r.em = true)
    ∧ ∀ role : AddRole,
        GoodCache ((applyAdds (DB4.empty, 0)
          [⟨"Alice", "alice@test.com", "pw", AddRole.owner, "t0"⟩,
           ⟨"Bob", "bob@test.com", "pw", AddRole.admin, "t1"⟩]).1.get role) := by
  have hdup : ∃ u ∈ (⟨[⟨"1", "Alice", "alice@test.com", "pw", "Owner", "t0"⟩], [], [], []⟩ :
      DB4).get AddRole.owner,
      '@' ∈ u.email.data ∧ normEmail u.email = normEmail "ALICE@test.com" :=
    ⟨⟨"1", "Alice", "alice@test.com", "pw", "Owner", "t0"⟩, by decide, by decide, by decide⟩
  have hv : ∀ r ∈ ([⟨"Alice", "alice@test.com", "pw", AddRole.owner, "t0"⟩,
      ⟨"Bob", "bob@test.com", "pw", AddRole.admin, "t1"⟩] : List AddReq),
      validEmail r.em = true := by decide
  exact ⟨hdup,
         add_duplicate_rejected_per_role.1 _ 1 ⟨"Alicetwo", "ALICE@test.com", "pw",
           AddRole.owner, "t1"⟩ hdup,
         hv,
         add_duplicate_rejected_per_role.2 _ 0 hv⟩

/-- C1 as stated is false on the code: after adding
`{name: Alice, email: alice@test.com, role: Owner}`, adding
`{name: Alicetwo, email: ALICE@test.com, role: Admin}` — same
normalized email, different role — SUCCEEDS, and the store then holds
two records (in different roles) sharing a normalized email, because
`email_exists` consults only the target role's index. -/
theorem add_cross_role_duplicate_counterexample :
    addMain DB4.empty 0 "Alice" "alice@test.com" "pw" AddRole.owner "t0" =
      Except.ok (⟨[⟨"1", "Alice", "alice@test.com", "pw", "Owner", "t0"⟩], [], [], []⟩, 1)
    ∧ addMain ⟨[⟨"1", "Alice", "alice@test.com", "pw", "Owner", "t0"⟩], [], [], []⟩ 1
        "Alicetwo" "ALICE@test.com" "pw" AddRole.admin "t1" =
      Except.ok (⟨[⟨"1", "Alice", "alice@test.com", "pw", "Owner", "t0"⟩], [],
                  [⟨"2", "Alicetwo", "ALICE@test.com", "pw", "Admin", "t1"⟩], []⟩, 2)
    ∧ validEmail "alice@test.com" = true
    ∧ validEmail "ALICE@test.com" = true
    ∧ normEmail "alice@test.com" = normEmail "ALICE@test.com" := by
  refine ⟨rfl, rfl, by decide, by decide, by decide⟩

end Jixovox

namespace Jixovox

/-- Membership in one dedup step. -/
theorem mem_dedupeInsert {ded : List XRec} {u v : XRec}
    (h : v ∈ dedupeInsert ded u) : v ∈ ded ∨ v = u := by
  induction ded with
  | nil =>
    simp [dedupeInsert] at h
    exact Or.inr h
  | cons w ws ih =>
    rw [dedupeInsert] at h
    by_cases hk : (identKey w == identKey u : Bool)
    · rw [if_pos hk] at h
      rcases List.mem_cons.mp h with rfl | h
      · exact Or.inr rfl
      · exact Or.inl (List.mem_cons_of_mem w h)
    · rw [if_neg hk] at h
      rcases List.mem_cons.mp h with rfl | h
      · exact Or.inl (List.mem_cons_self v ws)
      · rcases ih h with h | h
        · exact Or.inl (List.mem_cons_of_mem w h)
        · exact Or.inr h

/-- The inserted record is always present after one dedup step. -/
theorem self_mem_dedupeInsert (ded : List XRec) (u : XRec) :
    u ∈ dedupeInsert ded u := by
  induction ded with
  | nil => simp [dedupeInsert]
  | cons w ws ih =>
    rw [dedupeInsert]
    by_cases hk : (identKey w == identKey u : Bool)
    · rw [if_pos hk]
      exact List.mem_cons_self u ws
    · rw [if_neg hk]
      exact List.mem_cons_of_mem w ih

/-- The keys present after one dedup step. -/
theorem keyMem_dedupeInsert {ded : List XRec} {u : XRec} {k : String} :
    (∃ v ∈ dedupeInsert ded u, identKey v = k) ↔
      (∃ v ∈ ded, identKey v = k) ∨ k = identKey u := by
  constructor
  · rintro ⟨v, hv, rfl⟩
    rcases mem_dedupeInsert hv with h | rfl
    · exact Or.inl ⟨v, h, rfl⟩
    · exact Or.inr rfl
  · rintro (⟨v, hv, rfl⟩ | rfl)
    · induction ded with
      | nil => exact absurd hv (List.not_mem_nil v)
      | cons w ws ih =>
        rw [dedupeInsert]
        by_cases hk : (identKey w == identKey u : Bool)
        · rw [if_pos hk]
          rcases List.mem_cons.mp hv with rfl | hv
          · exact ⟨u, List.mem_cons_self u ws, (eq_of_beq hk).symm⟩
          · exact ⟨v, List.mem_cons_of_mem u hv, rfl⟩
        · rcases List.mem_cons.mp hv with rfl | hv
          · rw [if_neg hk]
            exact ⟨v, List.mem_cons_self v _, rfl⟩
          · obtain ⟨v2, hv2, he2⟩ := ih hv
            rw [if_neg hk]
            exact ⟨v2, List.mem_cons_of_mem w hv2, he2⟩
    · exact ⟨u, self_mem_dedupeInsert ded u, rfl⟩

/-- One dedup step keeps keys pairwise distinct. -/
theorem pairwise_dedupeInsert {ded : List XRec} {u : XRec}
    (h : ded.Pairwise fun a b => identKey a ≠ identKey b) :
    (dedupeInsert ded u).Pairwise fun a b => identKey a ≠ identKey b := by
  induction ded with
  | nil => simp [dedupeInsert]
  | cons w ws ih =>
    rw [List.pairwise_cons] at h
    obtain ⟨hw, hws⟩ := h
    rw [dedupeInsert]
    by_cases hk : (identKey w == identKey u : Bool)
    · rw [if_pos hk, List.pairwise_cons]
      refine ⟨fun b hb => ?_, hws⟩
      rw [← eq_of_beq hk]
      exact hw b hb
    · rw [if_neg hk, List.pairwise_cons]
      refine ⟨fun b hb => ?_, ih hws⟩
      rcases mem_dedupeInsert hb with hb | rfl
      · exact hw b hb
      · exact fun he => hk (beq_iff_eq.mpr he)

/-- With pairwise distinct keys, a record surviving one dedup step is
either the inserted record or an old record with a different key. -/
theorem mem_dedupeInsert_strong {ded : List XRec} {u v : XRec}
    (hpw : ded.Pairwise fun a b => identKey a ≠ identKey b)
    (h : v ∈ dedupeInsert ded u) :
    v = u ∨ (v ∈ ded ∧ identKey v ≠ identKey u) := by
  induction ded with
  | nil =>
    simp [dedupeInsert] at h
    exact Or.inl h
  | cons w ws ih =>
    rw [List.pairwise_cons] at hpw
    obtain ⟨hw, hws⟩ := hpw
    rw [dedupeInsert] at h
    by_cases hk : (identKey w == identKey u : Bool)
    · rw [if_pos hk] at h
      rcases List.mem_cons.mp h with rfl | h
      · exact Or.inl rfl
      · refine Or.inr ⟨List.mem_cons_of_mem w h, ?_⟩
        rw [← eq_of_beq hk]
        exact fun he => hw v h he.symm
    · rw [if_neg hk] at h
      rcases List.mem_cons.mp h with rfl | h
      · exact Or.inr ⟨List.mem_cons_self v ws, fun he => hk (beq_iff_eq.mpr he)⟩
      · rcases ih hws h with h2 | ⟨h2, h3⟩
        · exact Or.inl h2
        · exact Or.inr ⟨List.mem_cons_of_mem w h2, h3⟩

/-- A record with a fresh key is appended at the end. -/
theorem dedupeInsert_eq_append {ded : List XRec} {u : XRec}
    (h : ∀ v ∈ ded, identKey v ≠ identKey u) :
    dedupeInsert ded u = ded ++ [u] := by
  induction ded with
  | nil => rfl
  | cons w ws ih =>
    rw [dedupeInsert, if_neg, ih fun v hv => h v (List.mem_cons_of_mem w hv),
      List.cons_append]
    exact fun hk => h w (List.mem_cons_self w ws) (eq_of_beq hk)

/-- The last matching record after extending the input by one. -/
theorem lastWithKey_append_single (p : List XRec) (u : XRec) (k : String) :
    lastWithKey (p ++ [u]) k =
      if identKey u == k then some u else lastWithKey p k := by
  rw [lastWithKey, lastWithKey, List.reverse_append]
  by_cases h : (identKey u == k : Bool) <;> simp [List.find?, h]

end Jixovox

namespace Jixovox

/-- One dedup step preserves the loop invariant. -/
theorem dedupeInv_step {p ded : List XRec} (u : XRec)
    (h : DedupeInv p ded) : DedupeInv (p ++ [u]) (dedupeInsert ded u) := by
  obtain ⟨hpw, hlast, hkeys, hkeys2⟩ := h
  refine ⟨pairwise_dedupeInsert hpw, ?_, ?_, ?_⟩
  · intro v hv
    rcases mem_dedupeInsert_strong hpw hv with rfl | ⟨hvd, hne⟩
    · rw [lastWithKey_append_single, if_pos (beq_iff_eq.mpr rfl)]
    · rw [lastWithKey_append_single, if_neg, hlast v hvd]
      exact fun hb => hne (eq_of_beq hb).symm
  · intro w hw
    rcases List.mem_append.mp hw with hw | hw
    · obtain ⟨v, hv, he⟩ := hkeys w hw
      exact keyMem_dedupeInsert.mpr (Or.inl ⟨v, hv, he⟩)
    · have hw2 : w = u := List.mem_singleton.mp hw
      subst hw2
      exact ⟨w, self_mem_dedupeInsert ded w, rfl⟩
  · intro v hv
    rcases mem_dedupeInsert_strong hpw hv with rfl | ⟨hvd, _⟩
    · exact ⟨v, List.mem_append.mpr (Or.inr (List.mem_singleton.mpr rfl)), rfl⟩
    · obtain ⟨w, hw, he⟩ := hkeys2 v hvd
      exact ⟨w, List.mem_append.mpr (Or.inl hw), he⟩

/-- The dedup fold preserves the loop invariant. -/
theorem dedupeInv_fold (us : List XRec) :
    ∀ (p ded : List XRec), DedupeInv p ded →
      DedupeInv (p ++ us) (us.foldl dedupeInsert ded) := by
  induction us with
  | nil => intro p ded h; simpa using h
  | cons u rest ih =>
    intro p ded h
    have h2 := dedupeInv_step u h
    have h3 := ih (p ++ [u]) (dedupeInsert ded u) h2
    simpa [List.append_assoc] using h3

/-- `_dedupe_users` satisfies the loop invariant against its input. -/
theorem dedupeUsers_inv (ns : List XRec) : DedupeInv ns (dedupeUsers ns) := by
  have h0 : DedupeInv [] [] := by
    refine ⟨List.Pairwise.nil, ?_, ?_, ?_⟩ <;> intro v hv <;>
      exact absurd hv (List.not_mem_nil v)
  have := dedupeInv_fold ns [] [] h0
  simpa [dedupeUsers] using this

/-- Pointwise description of a successful normalization pass. -/
theorem normalizeAll_getElem {role : String} :
    ∀ {us ns : List XRec}, normalizeAll role us = Except.ok ns →
      ns.length = us.length ∧
      ∀ (i : Nat) (u : XRec), us[i]? = some u →
        ns[i]? = some u ∧ normalizeUser u role = Except.ok u ∨
        ∃ n, ns[i]? = some n ∧ normalizeUser u role = Except.ok n := by
  intro us
  induction us with
  | nil =>
    intro ns h
    rw [normalizeAll] at h
    cases h
    exact ⟨rfl, fun i u hu => by simp at hu⟩
  | cons u rest ih =>
    intro ns h
    rw [normalizeAll] at h
    rcases hn : normalizeUser u role with _ | n <;> rw [hn] at h
    · exact Except.noConfusion h
    · rcases hr : normalizeAll role rest with _ | ns2 <;> rw [hr] at h
      · exact Except.noConfusion h
      · cases h
        obtain ⟨hlen, hpt⟩ := ih hr
        constructor
        · simp [hlen]
        · intro i w hw
          match i with
          | 0 =>
            simp at hw
            subst hw
            exact Or.inr ⟨n, by simp, hn⟩
          | i + 1 =>
            simp at hw ⊢
            exact hpt i w hw

end Jixovox

namespace Jixovox

/-- The identity key of a normalized record in terms of the raw
record: the trimmed, lowercased email, or the (trimmed) id when the
trimmed email is empty. -/
theorem normalizeUser_ok_identKey {u n : XRec} {role : String}
    (h : normalizeUser u role = Except.ok n) :
    identKey n = if pyLower (pyStrip (u.email.getD "")) = ""
                 then pyStrip (u.id.getD "") else pyLower (pyStrip (u.email.getD "")) := by
  unfold normalizeUser at h
  by_cases hc : (u.id.isNone || u.name.isNone || u.email.isNone || u.role.isNone : Bool)
  · rw [if_pos hc] at h
    exact Except.noConfusion h
  · rw [if_neg hc] at h
    cases h
    simp [identKey, emailKey]

/-- C4: after the import pipeline's normalization pass, `_dedupe_users`
returns exactly one record per identity key: the surviving keys are
precisely the input keys, each survivor is the LAST input record
carrying its key, and the identity key of each normalized record is
its trimmed-then-lowercased email, falling back to its (trimmed) id
when that email is empty or absent. -/
theorem import_dedupe_one_per_key_last_wins (role : String) (us ns : List XRec)
    (h : normalizeAll role us = Except.ok ns) :
    ((dedupeUsers ns).Pairwise fun a b => identKey a ≠ identKey b)
    ∧ (∀ v ∈ dedupeUsers ns, lastWithKey ns (identKey v) = some v)
    ∧ (∀ u ∈ ns, ∃ v ∈ dedupeUsers ns, identKey v = identKey u)
    ∧ (∀ v ∈ dedupeUsers ns, ∃ u ∈ ns, identKey u = identKey v)
    ∧ ∀ (i : Nat) (u n : XRec), us[i]? = some u → ns[i]? = some n →
        identKey n = if pyLower (pyStrip (u.email.getD "")) = ""
                     then pyStrip (u.id.getD "") else pyLower (pyStrip (u.email.getD "")) := by
  obtain ⟨hpw, hlast, hk1, hk2⟩ := dedupeUsers_inv ns
  refine ⟨hpw, hlast, hk1, hk2, ?_⟩
  intro i u n hu hn
  obtain ⟨-, hpt⟩ := normalizeAll_getElem h
  rcases hpt i u hu with ⟨hn2, he⟩ | ⟨n2, hn2, he⟩ <;> rw [hn2] at hn <;> cases hn <;>
    exact normalizeUser_ok_identKey he

/-- Witness for C4: two incoming records whose emails normalize to the
same key (`" A@X.com"` and `"a@x.com"`); the deduplicated output keeps
one record per key, the later one. -/
theorem import_dedupe_one_per_key_last_wins_witness :
    normalizeAll "Owner"
      [⟨some "9", some "A", some " A@X.com", some "Member", []⟩,
       ⟨some "7", some "B", some "a@x.com", some "Owner", []⟩] =
      Except.ok
        [⟨some "9", some "A", some "A@X.com", some "Owner", []⟩,
         ⟨some "7", some "B", some "a@x.com", some "Owner", []⟩]
    ∧ dedupeUsers
        [⟨some "9", some "A", some "A@X.com", some "Owner", []⟩,
         ⟨some "7", some "B", some "a@x.com", some "Owner", []⟩] =
        [⟨some "7", some "B", some "a@x.com", some "Owner", []⟩]
    ∧ (((dedupeUsers
        [⟨some "9", some "A", some "A@X.com", some "Owner", []⟩,
         ⟨some "7", some "B", some "a@x.com", some "Owner", []⟩]).Pairwise
          fun a b => identKey a ≠ identKey b)
      ∧ (∀ v ∈ dedupeUsers
          [⟨some "9", some "A", some "A@X.com", some "Owner", []⟩,
           ⟨some "7", some "B", some "a@x.com", some "Owner", []⟩],
          lastWithKey
            [⟨some "9", some "A", some "A@X.com", some "Owner", []⟩,
             ⟨some "7", some "B", some "a@x.com", some "Owner", []⟩] (identKey v) = some v)
      ∧ (∀ u ∈ ([⟨some "9", some "A", some "A@X.com", some "Owner", []⟩,
           ⟨some "7", some "B", some "a@x.com", some "Owner", []⟩] : List XRec),
          ∃ v ∈ dedupeUsers
            [⟨some "9", some "A", some "A@X.com", some "Owner", []⟩,
             ⟨some "7", some "B", some "a@x.com", some "Owner", []⟩],
            identKey v = identKey u)
      ∧ (∀ v ∈ dedupeUsers
          [⟨some "9", some "A", some "A@X.com", some "Owner", []⟩,
           ⟨some "7", some "B", some "a@x.com", some "Owner", []⟩],
          ∃ u ∈ ([⟨some "9", some "A", some "A@X.com", some "Owner", []⟩,
             ⟨some "7", some "B", some "a@x.com", some "Owner", []⟩] : List XRec),
            identKey u = identKey v)
      ∧ ∀ (i : Nat) (u n : XRec),
          ([⟨some "9", some "A", some " A@X.com", some "Member", []⟩,
            ⟨some "7", some "B", some "a@x.com", some "Owner", []⟩] : List XRec)[i]? = some u →
          ([⟨some "9", some "A", some "A@X.com", some "Owner", []⟩,
            ⟨some "7", some "B", some "a@x.com", some "Owner", []⟩] : List XRec)[i]? = some n →
          identKey n = if pyLower (pyStrip (u.email.getD "")) = ""
                       then pyStrip (u.id.getD "") else pyLower (pyStrip (u.email.getD ""))) := by
  refine ⟨rfl, rfl, import_dedupe_one_per_key_last_wins "Owner" _ _ rfl⟩

end Jixovox

namespace Jixovox

/-- `_normalize_user` is the identity on an already-normalized record. -/
theorem normalizeUser_fixed {u : XRec} {role : String} (h : NormedRec u role) :
    normalizeUser u role = Except.ok u := by
  obtain ⟨hid, hnm, hem, hrl, hids, hnms, hems⟩ := h
  cases u with
  | mk i n e r x =>
    obtain ⟨iv, rfl⟩ := Option.isSome_iff_exists.mp hid
    obtain ⟨nv, rfl⟩ := Option.isSome_iff_exists.mp hnm
    obtain ⟨ev, rfl⟩ := Option.isSome_iff_exists.mp hem
    simp only [Option.getD_some] at hids hnms hems
    subst hrl
    simp [normalizeUser, hids, hnms, hems]

/-- The normalization pass is the identity on normalized role files. -/
theorem normalizeAll_fixed {l : List XRec} {role : String}
    (h : ∀ u ∈ l, NormedRec u role) : normalizeAll role l = Except.ok l := by
  induction l with
  | nil => rfl
  | cons u rest ih =>
    rw [normalizeAll, normalizeUser_fixed (h u (List.mem_cons_self u rest)),
      ih fun v hv => h v (List.mem_cons_of_mem u hv)]

/-- Folding dedup over records whose keys are all fresh just appends. -/
theorem foldl_dedupeInsert_fresh :
    ∀ (l acc : List XRec),
      ((acc ++ l).Pairwise fun a b => identKey a ≠ identKey b) →
      l.foldl dedupeInsert acc = acc ++ l := by
  intro l
  induction l with
  | nil => intro acc _; simp
  | cons u rest ih =>
    intro acc h
    have hfresh : ∀ v ∈ acc, identKey v ≠ identKey u := fun v hv =>
      (List.pairwise_append.mp h).2.2 v hv u (List.mem_cons_self u rest)
    have h2 : (((acc ++ [u]) ++ rest).Pairwise fun a b => identKey a ≠ identKey b) := by
      simpa [List.append_assoc] using h
    rw [List.foldl_cons, dedupeInsert_eq_append hfresh, ih (acc ++ [u]) h2]
    simp

/-- `_dedupe_users` is the identity on key-distinct lists. -/
theorem dedupeUsers_fixed {l : List XRec}
    (h : l.Pairwise fun a b => identKey a ≠ identKey b) :
    dedupeUsers l = l := by
  have := foldl_dedupeInsert_fresh l [] (by simpa using h)
  simpa [dedupeUsers] using this

/-- `_reindex_ids`, position-wise. -/
theorem reindexIds_getElem (l : List XRec) (i : Nat) :
    (reindexIds l)[i]? = l[i]?.map fun u => { u with id := some (toString (i + 1)) } := by
  rcases h : l[i]? with _ | u <;> simp [reindexIds, List.getElem?_enum, h]

/-- `_reindex_ids` is the identity on `1..N`-numbered lists. -/
theorem reindexIds_fixed {l : List XRec}
    (h : ∀ (i : Nat) (u : XRec), l[i]? = some u → u.id = some (toString (i + 1))) :
    reindexIds l = l := by
  apply List.ext_getElem?
  intro i
  rw [reindexIds_getElem]
  rcases hu : l[i]? with _ | u
  · rfl
  · have hid := h i u hu
    cases u
    simp_all

/-- Reading the role just written. -/
theorem DBX.get_set_eq5 (db : DBX) (r : Role5) (l : List XRec) :
    (db.set r l).get r = l := by
  cases r <;> rfl

/-- Writing one role leaves the others untouched. -/
theorem DBX.get_set_ne5 (db : DBX) {r r' : Role5} (l : List XRec)
    (h : r ≠ r') : (db.set r l).get r' = db.get r' := by
  cases r <;> cases r' <;> first | exact absurd rfl h | rfl

/-- Rewriting a role with its own content changes nothing. -/
theorem DBX.set_get (db : DBX) (r : Role5) : db.set r (db.get r) = db := by
  cases db
  cases r <;> rfl

/-- Role labels round-trip through the role-key check. -/
theorem strToRole5_label (r : Role5) : strToRole5 r.label = some r := by
  cases r <;> rfl

/-- The role-key check only accepts the exact labels. -/
theorem strToRole5_eq_label {s : String} {r : Role5}
    (h : strToRole5 s = some r) : s = r.label := by
  unfold strToRole5 at h
  split_ifs at h <;>
    first
      | exact Option.noConfusion h
      | (injection h with h0
         subst h0
         simp only [Role5.label]
         assumption)

/-- On a role file satisfying the identity invariant, one replace-mode
step of the role loop rewrites the file with its own content. -/
theorem importEntry_fixed (db : DBX) (t : Nat) (r : Role5)
    (h : RoleInvX (db.get r) r.label) :
    importEntry .replace db t r.label (db.get r) =
      .ok (db, t + (db.get r).length) := by
  obtain ⟨hnr, hpw, hseq⟩ := h
  simp only [importEntry, strToRole5_label, normalizeAll_fixed hnr, mergedRecs,
    dedupeUsers_fixed hpw, reindexIds_fixed hseq, DBX.set_get]

end Jixovox

namespace Jixovox

/-- C5 (amended): for every store state whose role files are
normalized (role-stamped, stripped fields), sequentially numbered
`1..N`, and whose identity keys are pairwise distinct within each
role, exporting a snapshot and importing it back in replace mode
succeeds and leaves every role's persisted record list literally
identical (the reassigned ids coincide with the existing `1..N`), with
the stats counter set to the total record count.  Without the
key-distinctness condition the claim fails — see the
counterexample. -/
theorem export_import_replace_roundtrip (db : DBX) (hinv : InvX db) :
    importDatabase .replace db (exportSnapshot db) =
      ((db, some (db.owner.length + db.developer.length + db.admin.length +
        db.member.length + db.bot.length)), none) := by
  have h1 := importEntry_fixed db 0 .owner (hinv .owner)
  have h2 := importEntry_fixed db (0 + db.owner.length) .developer (hinv .developer)
  have h3 := importEntry_fixed db (0 + db.owner.length + db.developer.length) .admin
    (hinv .admin)
  have h4 := importEntry_fixed db
    (0 + db.owner.length + db.developer.length + db.admin.length) .member (hinv .member)
  have h5 := importEntry_fixed db
    (0 + db.owner.length + db.developer.length + db.admin.length + db.member.length) .bot
    (hinv .bot)
  simp only [Role5.label, DBX.get, Nat.zero_add] at h1 h2 h3 h4 h5
  simp only [importDatabase, exportSnapshot, importLoop, Nat.zero_add, h1, h2, h3, h4, h5]

/-- Witness for the amended C5 at a one-record store. -/
theorem export_import_replace_roundtrip_witness :
    InvX ⟨[⟨some "1", some "Al", some "al@x.com", some "Owner", []⟩], [], [], [], []⟩
    ∧ importDatabase .replace
        ⟨[⟨some "1", some "Al", some "al@x.com", some "Owner", []⟩], [], [], [], []⟩
        (exportSnapshot
          ⟨[⟨some "1", some "Al", some "al@x.com", some "Owner", []⟩], [], [], [], []⟩) =
      ((⟨[⟨some "1", some "Al", some "al@x.com", some "Owner", []⟩], [], [], [], []⟩,
        some (1 + 0 + 0 + 0 + 0)), none) := by
  have hinv : InvX ⟨[⟨some "1", some "Al", some "al@x.com", some "Owner", []⟩],
      [], [], [], []⟩ := by
    intro r
    cases r with
    | owner =>
      refine ⟨?_, List.pairwise_singleton _ _, fun i u h => ?_⟩
      · intro u hu
        have h2 := List.mem_singleton.mp hu
        subst h2
        exact ⟨rfl, rfl, rfl, rfl, rfl, rfl, rfl⟩
      · rcases i with _ | i
        · simp [DBX.get] at h
          subst h
          rfl
        · simp [DBX.get] at h
    | developer =>
      exact ⟨fun u hu => absurd hu (List.not_mem_nil u), List.Pairwise.nil,
        fun i u h => by simp [DBX.get] at h⟩
    | admin =>
      exact ⟨fun u hu => absurd hu (List.not_mem_nil u), List.Pairwise.nil,
        fun i u h => by simp [DBX.get] at h⟩
    | member =>
      exact ⟨fun u hu => absurd hu (List.not_mem_nil u), List.Pairwise.nil,
        fun i u h => by simp [DBX.get] at h⟩
    | bot =>
      exact ⟨fun u hu => absurd hu (List.not_mem_nil u), List.Pairwise.nil,
        fun i u h => by simp [DBX.get] at h⟩
  exact ⟨hinv, export_import_replace_roundtrip _ hinv⟩

/-- C5 as stated is false: the state below is reachable — it is
exactly what a successful replace-mode import of a three-record
snapshot persists — yet exporting it and importing that snapshot back
in replace mode drops a record: after renumbering, the record with
empty email and id `"3"` acquires the same identity key as the record
whose email is the digit string `"3"`, so the second import
deduplicates them (2 records instead of 3). -/
theorem export_import_replace_counterexample :
    importDatabase .replace DBX.empty
      ⟨some [("Owner",
        [⟨some "9", some "A", some "3", some "Owner", []⟩,
         ⟨some "7", some "B", some "", some "Owner", []⟩,
         ⟨some "8", some "C", some "", some "Owner", []⟩])]⟩ =
      ((⟨[⟨some "1", some "A", some "3", some "Owner", []⟩,
          ⟨some "2", some "B", some "", some "Owner", []⟩,
          ⟨some "3", some "C", some "", some "Owner", []⟩], [], [], [], []⟩,
        some 3), none)
    ∧ importDatabase .replace
        ⟨[⟨some "1", some "A", some "3", some "Owner", []⟩,
          ⟨some "2", some "B", some "", some "Owner", []⟩,
          ⟨some "3", some "C", some "", some "Owner", []⟩], [], [], [], []⟩
        (exportSnapshot
          ⟨[⟨some "1", some "A", some "3", some "Owner", []⟩,
            ⟨some "2", some "B", some "", some "Owner", []⟩,
            ⟨some "3", some "C", some "", some "Owner", []⟩], [], [], [], []⟩) =
      ((⟨[⟨some "1", some "C", some "", some "Owner", []⟩,
          ⟨some "2", some "B", some "", some "Owner", []⟩], [], [], [], []⟩,
        some 2), none)
    ∧ (2 : Nat) ≠ 3 := by
  refine ⟨rfl, rfl, by decide⟩

end Jixovox

namespace Jixovox

/-- The import loop does not touch a role absent from the remaining
entries. -/
theorem importLoop_get_untouched (mode : Mode) :
    ∀ (entries : List (String × List XRec)) (db db2 : DBX) (t t2 : Nat)
      (err : Option String) (r : Role5),
      (∀ p ∈ entries, strToRole5 p.1 ≠ some r) →
      importLoop mode entries db t = ((db2, t2), err) →
      db2.get r = db.get r := by
  intro entries
  induction entries with
  | nil =>
    intro db db2 t t2 err r _ h
    rw [importLoop] at h
    cases h
    rfl
  | cons p rest ih =>
    intro db db2 t t2 err r hnr h
    obtain ⟨role, recs⟩ := p
    rw [importLoop] at h
    rcases he : importEntry mode db t role recs with _ | ⟨db3, t3⟩ <;> rw [he] at h
    · cases h
      rfl
    · have hrest : ∀ p ∈ rest, strToRole5 p.1 ≠ some r :=
        fun p hp => hnr p (List.mem_cons_of_mem _ hp)
      have hmid : db3.get r = db.get r := by
        unfold importEntry at he
        rcases hs : strToRole5 role with _ | r2 <;> rw [hs] at he
        · cases he
          rfl
        · have hne : r2 ≠ r := fun hrr => by
            apply hnr (role, recs) (List.mem_cons_self _ rest)
            rw [hs, hrr]
          rcases hn : normalizeAll role recs with _ | incoming <;> rw [hn] at he
          · exact Except.noConfusion he
          · cases he
            exact DBX.get_set_ne5 db _ hne
      rw [ih db3 db2 t3 t2 err r hrest h, hmid]

/-- The accumulated total of a successful import loop is the sum of
the final per-role counts over the processed entries. -/
theorem importLoop_total (mode : Mode) :
    ∀ (entries : List (String × List XRec)) (db db2 : DBX) (t total : Nat),
      (entries.map Prod.fst).Nodup →
      importLoop mode entries db t = ((db2, total), none) →
      total = t + processedSum db2 entries := by
  intro entries
  induction entries with
  | nil =>
    intro db db2 t total _ h
    rw [importLoop] at h
    cases h
    rfl
  | cons p rest ih =>
    intro db db2 t total hnd h
    obtain ⟨role, recs⟩ := p
    rw [List.map_cons, List.nodup_cons] at hnd
    obtain ⟨hnotin, hndr⟩ := hnd
    rw [importLoop] at h
    rcases hs : strToRole5 role with _ | r
    · have he : importEntry mode db t role recs = .ok (db, t) := by
        unfold importEntry
        rw [hs]
      simp only [he] at h
      have := ih db db2 t total hndr h
      simpa [processedSum, hs] using this
    · cases hn : normalizeAll role recs with
      | error msg =>
        have he : importEntry mode db t role recs = .error msg := by
          unfold importEntry
          rw [hs, hn]
        simp only [he] at h
        simp at h
      | ok incoming =>
        have he : importEntry mode db t role recs =
            .ok (db.set r (reindexIds (mergedRecs mode (db.get r) incoming)),
              t + (reindexIds (mergedRecs mode (db.get r) incoming)).length) := by
          unfold importEntry
          rw [hs, hn]
        simp only [he] at h
        have htot := ih _ db2 _ total hndr h
        have hun : db2.get r =
            (db.set r (reindexIds (mergedRecs mode (db.get r) incoming))).get r := by
          refine importLoop_get_untouched mode rest _ db2 _ total none r ?_ h
          intro q hq hsq
          apply hnotin
          have hq1 : q.1 = role := by
            rw [strToRole5_eq_label hsq, strToRole5_eq_label hs]
          show role ∈ List.map Prod.fst rest
          rw [← hq1]
          exact List.mem_map_of_mem Prod.fst hq
        rw [DBX.get_set_eq5] at hun
        simp only [processedSum, hs, htot, hun]
        omega

end Jixovox

namespace Jixovox

/-- C7 (amended): after a successful import, the persisted
`User_Count` equals the sum of the final record counts of the roles
PROCESSED from the snapshot — the role keys present in its `users`
mapping and belonging to the fixed enumeration.  Roles absent from the
snapshot keep their stored records but are not counted. -/
theorem import_stats_counts_processed_roles (mode : Mode) (db db2 : DBX)
    (entries : List (String × List XRec)) (total : Nat)
    (hnd : (entries.map Prod.fst).Nodup)
    (h : importDatabase mode db ⟨some entries⟩ = ((db2, some total), none)) :
    total = processedSum db2 entries := by
  unfold importDatabase at h
  rcases hl : importLoop mode entries db 0 with ⟨⟨db3, t3⟩, err⟩
  simp only [hl] at h
  cases err with
  | none =>
    obtain ⟨h1, h2⟩ : db3 = db2 ∧ t3 = total := by
      constructor
      · exact congrArg (fun q => q.1.1) h
      · have := congrArg (fun q => q.1.2) h
        simpa using this
    subst h1
    subst h2
    have := importLoop_total mode entries db db3 0 t3 hnd hl
    simpa using this
  | some msg => simp at h

/-- Witness for the amended C7 at a store holding one Owner record and
a snapshot containing only an Admin entry. -/
theorem import_stats_counts_processed_roles_witness :
    (([("Admin", [⟨some "5", some "X", some "x@y.z", some "Admin", []⟩])].map
        (Prod.fst (α := String) (β := List XRec))).Nodup)
    ∧ importDatabase .replace
        ⟨[⟨some "1", some "O", some "o@x.com", some "Owner", []⟩], [], [], [], []⟩
        ⟨some [("Admin", [⟨some "5", some "X", some "x@y.z", some "Admin", []⟩])]⟩ =
        ((⟨[⟨some "1", some "O", some "o@x.com", some "Owner", []⟩], [],
           [⟨some "1", some "X", some "x@y.z", some "Admin", []⟩], [], []⟩, some 1), none)
    ∧ 1 = processedSum
        ⟨[⟨some "1", some "O", some "o@x.com", some "Owner", []⟩], [],
         [⟨some "1", some "X", some "x@y.z", some "Admin", []⟩], [], []⟩
        [("Admin", [⟨some "5", some "X", some "x@y.z", some "Admin", []⟩])] := by
  refine ⟨by decide, rfl, ?_⟩
  exact import_stats_counts_processed_roles .replace
    ⟨[⟨some "1", some "O", some "o@x.com", some "Owner", []⟩], [], [], [], []⟩
    ⟨[⟨some "1", some "O", some "o@x.com", some "Owner", []⟩], [],
     [⟨some "1", some "X", some "x@y.z", some "Admin", []⟩], [], []⟩
    [("Admin", [⟨some "5", some "X", some "x@y.z", some "Admin", []⟩])] 1
    (by decide) rfl

/-- C7 as stated is false: importing a snapshot that mentions only the
Admin role into a store whose Owner role holds one record persists
`User_Count = 1`, while the final store holds 2 records across all
roles (the untouched Owner record plus the imported Admin record). -/
theorem import_stats_ignores_absent_roles_counterexample :
    importDatabase .replace
      ⟨[⟨some "1", some "O", some "o@x.com", some "Owner", []⟩], [], [], [], []⟩
      ⟨some [("Admin", [⟨some "5", some "X", some "x@y.z", some "Admin", []⟩])]⟩ =
      ((⟨[⟨some "1", some "O", some "o@x.com", some "Owner", []⟩], [],
         [⟨some "1", some "X", some "x@y.z", some "Admin", []⟩], [], []⟩, some 1), none)
    ∧ (⟨[⟨some "1", some "O", some "o@x.com", some "Owner", []⟩], [],
        [⟨some "1", some "X", some "x@y.z", some "Admin", []⟩], [], []⟩ : DBX).owner.length
      + (⟨[⟨some "1", some "O", some "o@x.com", some "Owner", []⟩], [],
          [⟨some "1", some "X", some "x@y.z", some "Admin", []⟩], [], []⟩ : DBX).developer.length
      + (⟨[⟨some "1", some "O", some "o@x.com", some "Owner", []⟩], [],
          [⟨some "1", some "X", some "x@y.z", some "Admin", []⟩], [], []⟩ : DBX).admin.length
      + (⟨[⟨some "1", some "O", some "o@x.com", some "Owner", []⟩], [],
          [⟨some "1", some "X", some "x@y.z", some "Admin", []⟩], [], []⟩ : DBX).member.length
      + (⟨[⟨some "1", some "O", some "o@x.com", some "Owner", []⟩], [],
          [⟨some "1", some "X", some "x@y.z", some "Admin", []⟩], [], []⟩ : DBX).bot.length = 2
    ∧ (1 : Nat) ≠ 2 := by
  refine ⟨rfl, by decide, by decide⟩

end Jixovox
